import Mathlib

/-!
Shallow embedding of `abaverify/processresults.py`, the result-extraction
engine of nasa/Abaverify.  Python floats are modelled as rationals, code that
can raise returns `Except PyErr`, and the Abaqus odb collaborator is modelled
as explicit data passed to each function.
-/

/-- Errors raised by the embedded code.  Each constructor corresponds to one
`raise` site in `processresults.py`, or to an exception the Python runtime
itself raises there (`ValueError` from `max([])` / `min([])`, `IndexError`
from an out-of-range subscript, `NameError` from an unbound variable). -/
inductive PyErr where
  | mustSpecifyPositionMultiStep
  | mustSpecifyPosition
  | missingNset
  | scanFailed
  | indexError
  | nameError
  | valueErrorEmptySeq
  | noPointsInWindow
  | zeroSpacingError
  | zeroCrossingNotFound
  | nonMonotonicDomain
  | unsupportedInterpolation
  | interpEmptyOrMismatch
  deriving DecidableEq

deriving instance DecidableEq for Except

/-- Python `max` over a list (`max([])` raises `ValueError`). -/
def pyMaxList (l : List ℚ) : Except PyErr ℚ :=
  match l with
  | [] => .error .valueErrorEmptySeq
  | h :: t => .ok (t.foldl max h)

/-- Python `min` over a list (`min([])` raises `ValueError`). -/
def pyMinList (l : List ℚ) : Except PyErr ℚ :=
  match l with
  | [] => .error .valueErrorEmptySeq
  | h :: t => .ok (t.foldl min h)

/-- `np.all(np.diff(xp) > 0)`: every consecutive difference is positive,
vacuously true for lists of length at most one (matching `np.all` on an
empty array). -/
def allDiffPos (xp : List ℚ) : Bool :=
  (xp.zip xp.tail).all (fun p => decide (p.1 < p.2))

/-- `np.all(np.diff(xp) < 0)`: every consecutive difference is negative,
vacuously true for lists of length at most one. -/
def allDiffNeg (xp : List ℚ) : Bool :=
  (xp.zip xp.tail).all (fun p => decide (p.2 < p.1))

/-- Model of `np.interp(x, xp, fp)` for a single query point on ascending
sample points `xp` (the only regime in which numpy documents the result):
the end values outside the sampled domain, linear interpolation inside. -/
def npInterp (x : ℚ) : List ℚ → List ℚ → ℚ
  | [_], f0 :: _ => f0
  | x0 :: x1 :: xs, f0 :: f1 :: fs =>
    if x ≤ x0 then f0
    else if x ≤ x1 then f0 + (f1 - f0) * (x - x0) / (x1 - x0)
    else npInterp x (x1 :: xs) (f1 :: fs)
  | _, _ => 0

/-- Embedding of `interpolate` from `processresults.py`: use `np.interp`
directly when `np.all(np.diff(xp) > 0)`, fall back to interpolating the
sign-flipped domain at the sign-flipped query when every `xp` value is
negative, and raise otherwise.  `np.interp` itself raises `ValueError` on an
empty sample array or mismatched lengths, which the model surfaces in the
branches that reach it. -/
def interpolate (x : ℚ) (xp fp : List ℚ) : Except PyErr ℚ :=
  if allDiffPos xp then
    if xp.length = 0 ∨ xp.length ≠ fp.length then .error .interpEmptyOrMismatch
    else .ok (npInterp x xp fp)
  else if xp.all (fun i => decide (i < 0)) then
    if xp.length ≠ fp.length then .error .interpEmptyOrMismatch
    else .ok (npInterp (-1 * x) (xp.map (fun v => |v|)) fp)
  else .error .unsupportedInterpolation

/-- Embedding of the window-selection block shared by the `xy_infl_pt` and
`slope` evaluators: keep the points with `windowMin < x < windowMax`, raise
when none remain, then take Python's `min` over the absolute consecutive
x-spacings of the kept points (`min([])` raises `ValueError` when exactly one
point remains) and raise again when that minimum is zero. -/
def windowSelect (xyData : List (ℚ × ℚ)) (windowMin windowMax : ℚ) :
    Except PyErr (List (ℚ × ℚ)) :=
  let windowed := xyData.filter
    (fun xi => decide (windowMin < xi.1) && decide (xi.1 < windowMax))
  if windowed.length = 0 then .error .noPointsInWindow
  else
    match pyMinList ((windowed.zip windowed.tail).map (fun p => |p.2.1 - p.1.1|)) with
    | .error e => .error e
    | .ok m => if m = 0 then .error .zeroSpacingError else .ok windowed

/-- Embedding of the `continuous` test branch, which computes
`max([max(referenceValue, abs(xy[x][1] - xy[x-1][1])) for x in range(2, len(xy))])`. -/
def continuousComputed (referenceValue : ℚ) (xy : List (ℚ × ℚ)) : Except PyErr ℚ :=
  pyMaxList ((List.range' 2 (xy.length - 2)).map
    (fun x => max referenceValue |(xy.getD x (0, 0)).2 - (xy.getD (x - 1) (0, 0)).2|))

/-- The spec's formula for the `continuous` test: the running maximum of
`max(referenceValue, |y[i] - y[i-1]|)` over all consecutive sample pairs of a
series (an error when the series has no consecutive pair, mirroring the shape
of the code's result). -/
def continuousSpecAllPairs (referenceValue : ℚ) (xy : List (ℚ × ℚ)) : Except PyErr ℚ :=
  pyMaxList ((xy.zip xy.tail).map (fun p => max referenceValue |p.2.2 - p.1.2|))

/-- Embedding of the `tabular` test branch: raise when every consecutive
x-difference of the combined series is negative (`np.all(np.diff(x) < 0)`),
otherwise interpolate y at the x of each reference pair (`np.interp`
vectorized over the query points). -/
def tabularComputed (xy : List (ℚ × ℚ)) (referenceValue : List (ℚ × ℚ)) :
    Except PyErr (List (ℚ × ℚ)) :=
  let x := xy.map Prod.fst
  let y := xy.map Prod.snd
  if allDiffNeg x then .error .nonMonotonicDomain
  else .ok (referenceValue.map (fun p => (p.1, npInterp p.1 x y)))

/-- A series of x values is non-decreasing (the spec's stated domain condition
for the `tabular` evaluator). -/
def nonDecreasing (x : List ℚ) : Bool :=
  (x.zip x.tail).all (fun p => decide (p.1 ≤ p.2))

/-- Embedding of the `disp_at_zero_y` test branch.  The window is the explicit
`window` pair when present and `referenceValue ± 2 * tolerance` otherwise; the
zero tolerance defaults to `1e-6`.  Python initializes `disp_crit = 0`,
overwrites it with the x of the first windowed point whose `|y| ≤ zeroTol`,
and raises when `disp_crit == 0` afterwards. -/
def dispAtZeroY (xy : List (ℚ × ℚ)) (window : Option (ℚ × ℚ))
    (referenceValue tolerance : ℚ) (zeroTol : Option ℚ) : Except PyErr ℚ :=
  let windowMin := match window with
    | some w => w.1
    | none => referenceValue - 2 * tolerance
  let windowMax := match window with
    | some w => w.2
    | none => referenceValue + 2 * tolerance
  let windowed := xy.filter
    (fun xi => decide (windowMin < xi.1) && decide (xi.1 < windowMax))
  let zt := zeroTol.getD (1 / 1000000)
  let disp_crit := match windowed.find? (fun pt => decide (|pt.2| ≤ zt)) with
    | some pt => pt.1
    | none => 0
  if disp_crit = 0 then .error .zeroCrossingNotFound else .ok disp_crit

/-- The series the `finalValue` test selects: the evaluation-expression result
when `evalStatement` is present in the test specification, the positionally
accessed series otherwise. -/
def finalValueSelectedSeries (hasEvalStatement : Bool)
    (evalSeries posSeries : List (ℚ × ℚ)) : List (ℚ × ℚ) :=
  if hasEvalStatement then evalSeries else posSeries

/-- Embedding of the `finalValue` test branch.  The branch binds the selected
series to `xy`, but the value it stores is `xyDataObj[-1][1]`, and `xyDataObj`
is assigned only in the positional branch: under `evalStatement` it still
holds whatever a previous test iteration bound it to (`NameError` when nothing
did). -/
def finalValueBranch (hasEvalStatement : Bool) (evalSeries posSeries : List (ℚ × ℚ))
    (prevXyDataObj : Option (List (ℚ × ℚ))) : Except PyErr ℚ :=
  let xy := finalValueSelectedSeries hasEvalStatement evalSeries posSeries
  let xyDataObj : Option (List (ℚ × ℚ)) :=
    if hasEvalStatement then prevXyDataObj else some xy
  match xyDataObj with
  | none => .error .nameError
  | some l =>
    match l.getLast? with
    | none => .error .indexError
    | some pt => .ok pt.2

/-- Run-level analysis-error gating (`processresults.py`, the block guarded by
`numberOfAnalysisErrors > 0`): when `log_stress_at_failure_init` appears among
the requested result types, any error whose description is not
`'Excessively distorted elements'` raises; control then falls through to the
`ignoreAnalysisErrors` check, which raises when the key is absent or its value
is falsy.  Returns `true` when the gate raises. -/
def analysisErrorGate (numAnalysisErrors : ℕ) (errorDescriptions : List String)
    (resultTypes : List String) (ignoreAnalysisErrors : Option Bool) : Bool :=
  if numAnalysisErrors > 0 then
    if resultTypes.contains "log_stress_at_failure_init" &&
        errorDescriptions.any (fun e => !(e == "Excessively distorted elements")) then
      true
    else
      match ignoreAnalysisErrors with
      | some b => !b
      | none => true
  else false

/-- Run-level warning gating (`if "ignoreWarnings" in para and not
para["ignoreWarnings"]: if numberOfAnalysisWarnings > 0: raise`).  Returns
`true` when the gate raises. -/
def warningGate (ignoreWarnings : Option Bool) (numAnalysisWarnings : ℕ) : Bool :=
  match ignoreWarnings with
  | some b => !b && decide (0 < numAnalysisWarnings)
  | none => false

/-- One history region of a step: its label (e.g. `"Node PART-1-1.9"`) paired
with the names of the history outputs it carries. -/
abbrev HistoryRegion := String × List String

/-- A step of the odb, as the scan sees it: its ordered list of history
regions. -/
abbrev StepData := List HistoryRegion

/-- Python's `str.split(sep)` with an explicit one-character separator, on the
character list of a string: consecutive separators yield empty pieces, exactly
like `String.splitOn` for a one-character pattern. -/
def splitCharsOn (sep : Char) : List Char → List (List Char)
  | [] => [[]]
  | c :: cs =>
    let r := splitCharsOn sep cs
    if c = sep then [] :: r
    else (c :: r.headD []) :: r.tail

/-- `s.split(sep)` for a string and a one-character separator. -/
def pySplit (s : String) (sep : Char) : List String :=
  (splitCharsOn sep s.data).map (fun l => ⟨l⟩)

/-- The scan inside `_historyOutputNameHelperNode` over
`odb.steps[step].historyRegions`: the first region whose outputs contain the
symbol decides the outcome — a two-token `Node <label>` region label returns
the assembled name (the node number is the text after the `.` of the label's
second token, `IndexError` when it has no `.`), any other label raises
`Must specify a position`, and a scan finding no region that contains the
symbol falls through to the final raise. -/
def scanRegionsForSymbol (preString i nset : String) : StepData → Except PyErr String
  | [] => .error .scanFailed
  | (label, outputs) :: rest =>
    if outputs.contains i then
      let labelSplit := pySplit label ' '
      if labelSplit.headD "" == "Node" && labelSplit.length == 2 then
        match (pySplit (labelSplit.getD 1 "") '.').get? 1 with
        | some nodeNumber =>
          .ok (preString ++ i ++ " at Node " ++ nodeNumber ++ " in NSET " ++ nset)
        | none => .error .indexError
      else .error .mustSpecifyPosition
    else scanRegionsForSymbol preString i nset rest

/-- Embedding of `_historyOutputNameHelperNode` for a structured node
identifier (an `RF`/`U` symbol with optional `position` and `nset`
qualifiers). -/
def historyOutputNameHelperNode (preString : String) (symbol : String)
    (position : Option String) (nset : Option String) (steps : List StepData) :
    Except PyErr String :=
  match position, nset with
  | some pos, some ns =>
    .ok (preString ++ symbol ++ " at " ++ pos ++ " in NSET " ++ ns)
  | none, some ns =>
    if steps.length > 1 then .error .mustSpecifyPositionMultiStep
    else
      match steps.head? with
      | none => .error .indexError
      | some step => scanRegionsForSymbol preString symbol ns step
  | _, none => .error .missingNset

/-- Number of channels of a step that the no-position scan can match: regions
whose outputs contain the symbol and whose label has the two-token
`Node <label>` form. -/
def matchingRegionCount (i : String) (step : StepData) : ℕ :=
  (step.filter (fun r => r.2.contains i &&
    (((pySplit r.1 ' ').headD "" == "Node") && ((pySplit r.1 ' ').length == 2)))).length

/-- A Python value of the shapes the result serializer (`write_results`)
handles: strings, "numbers" (any non-string scalar, carried as the character
list that `str(v)` prints, e.g. `42.0`), ordered mappings, and sequences.
Text is modelled as `List Char` throughout the serializer so that every
operation is structural. -/
inductive PyVal where
  | str (s : List Char)
  | num (s : List Char)
  | dict (entries : List (List Char × PyVal))
  | seq (elems : List PyVal)

/-- `'\t' * depth`. -/
def tabs (depth : ℕ) : List Char := List.replicate depth '\t'

mutual

/-- The text `write_results` emits for one value at a given depth.  Only
mappings and sequences produce output at the top of a call (scalars are
written inline by the enclosing container's loop; a scalar passed directly to
`write_results` writes nothing).  At depth 0 a container closes with the bare
bracket, at positive depth with a trailing comma. -/
def writeVal : PyVal → ℕ → List Char
  | .dict entries, depth =>
    tabs depth ++ ['\x7b', '\n'] ++ writeEntries entries depth ++
      tabs depth ++ (if depth = 0 then ['\x7d', '\n'] else ['\x7d', ',', ' ', '\n'])
  | .seq elems, depth =>
    tabs depth ++ ['[', '\n'] ++ writeElems elems depth ++
      tabs depth ++ (if depth = 0 then [']', '\n'] else [']', ',', '\n'])
  | _, _ => []

/-- The text of a mapping's entries: each key is written quoted, followed by
`": "`, then the value — inline with a trailing comma for scalars, on the
following lines via `writeVal` at `depth + 1` for containers. -/
def writeEntries : List (List Char × PyVal) → ℕ → List Char
  | [], _ => []
  | (k, v) :: rest, depth =>
    tabs depth ++ ['"'] ++ k ++ ['"', ':', ' '] ++
      (match v with
       | .dict es => ['\n'] ++ writeVal (.dict es) (depth + 1)
       | .seq vs => ['\n'] ++ writeVal (.seq vs) (depth + 1)
       | .str s => ['"'] ++ s ++ ['"', ',', '\n']
       | .num s => s ++ [',', '\n']) ++
      writeEntries rest depth

/-- The text of a sequence's elements: scalars inline with a trailing comma,
containers via `writeVal` at `depth + 1`. -/
def writeElems : List PyVal → ℕ → List Char
  | [], _ => []
  | v :: rest, depth =>
    (match v with
     | .dict es => writeVal (.dict es) (depth + 1)
     | .seq vs => writeVal (.seq vs) (depth + 1)
     | .str s => tabs depth ++ ['"'] ++ s ++ ['"', ',', ' ', '\n']
     | .num s => tabs depth ++ s ++ [',', ' ', '\n']) ++
    writeElems rest depth

end

/-- The whole file `write_results(results, fileName)` produces for a result
collection: the `results = ` prelude followed by the value at depth 0. -/
def writeResultsFile (v : PyVal) : List Char :=
  "results = ".data ++ writeVal v 0

/-- Whether a value is a container (mapping or sequence) — the only shapes a
result collection has at top level (`write_results` writes nothing for a bare
scalar). -/
def isContainer : PyVal → Bool
  | .dict _ => true
  | .seq _ => true
  | _ => false

/-- Whitespace characters the reader skips between tokens. -/
def isWsChar (c : Char) : Bool :=
  c = ' ' || c = '\t' || c = '\n' || c = '\r'

/-- Structural delimiter characters of the Python literal the serializer
emits. -/
def isDelimChar (c : Char) : Bool :=
  c = '\x7b' || c = '\x7d' || c = '[' || c = ']' || c = ',' || c = ':'

/-- A character that can be part of an unquoted atom (a number's printed
form, or a bare name such as `results`). -/
def isAtomChar (c : Char) : Bool :=
  !(isWsChar c) && !(isDelimChar c) && !(c = '"')

/-- Tokens of the Python literal produced by the serializer. -/
inductive Tok where
  | lbrace
  | rbrace
  | lbrack
  | rbrack
  | comma
  | colon
  | strTok (s : List Char)
  | atomTok (s : List Char)
  deriving DecidableEq

/-- The token for one delimiter character. -/
def delimTok (c : Char) : Tok :=
  if c = '\x7b' then .lbrace
  else if c = '\x7d' then .rbrace
  else if c = '[' then .lbrack
  else if c = ']' then .rbrack
  else if c = ',' then .comma
  else .colon

/-- State of the tokenizer: between tokens, inside a quoted string, or inside
an unquoted atom (the accumulators hold the consumed characters reversed). -/
inductive TokMode where
  | top
  | inStr (acc : List Char)
  | inAtom (acc : List Char)

/-- Tokenizer for the Python-literal subset the serializer emits (modelled
from the spec: the produced file is read back by Python's own parser, which
this reproduces on the serializer's output — strings have no escape
processing, so the well-formedness conditions below exclude the characters on
which Python's reader would behave differently).  `none` models a parse
error, e.g. an unterminated string literal. -/
def tokenizeFrom : List Char → TokMode → Option (List Tok)
  | [], .top => some []
  | [], .inStr _ => none
  | [], .inAtom acc => some [.atomTok acc.reverse]
  | c :: cs, .top =>
    if isWsChar c then tokenizeFrom cs .top
    else if isDelimChar c then (tokenizeFrom cs .top).map (fun ts => delimTok c :: ts)
    else if c = '"' then tokenizeFrom cs (.inStr [])
    else tokenizeFrom cs (.inAtom [c])
  | c :: cs, .inStr acc =>
    if c = '"' then (tokenizeFrom cs .top).map (fun ts => .strTok acc.reverse :: ts)
    else tokenizeFrom cs (.inStr (c :: acc))
  | c :: cs, .inAtom acc =>
    if isAtomChar c then tokenizeFrom cs (.inAtom (c :: acc))
    else if isWsChar c then (tokenizeFrom cs .top).map (fun ts => .atomTok acc.reverse :: ts)
    else if isDelimChar c then
      ((tokenizeFrom cs .top).map (fun ts => delimTok c :: ts)).map
        (fun ts => .atomTok acc.reverse :: ts)
    else (tokenizeFrom cs (.inStr [])).map (fun ts => .atomTok acc.reverse :: ts)

/-- Tokenize a whole text. -/
def tokenize (cs : List Char) : Option (List Tok) := tokenizeFrom cs .top

mutual

/-- Fuel-indexed recursive-descent reader for one value. -/
def parseVal : ℕ → List Tok → Option (PyVal × List Tok)
  | 0, _ => none
  | f + 1, .lbrace :: rest => (parseEntries f rest).map (fun p => (.dict p.1, p.2))
  | f + 1, .lbrack :: rest => (parseElems f rest).map (fun p => (.seq p.1, p.2))
  | _ + 1, .strTok s :: rest => some (.str s, rest)
  | _ + 1, .atomTok s :: rest => some (.num s, rest)
  | _ + 1, _ => none

/-- Reader for a mapping body: entries `"key": value,` until the closing
brace (the serializer emits a comma after every entry, which Python's literal
syntax accepts as a trailing comma). -/
def parseEntries : ℕ → List Tok → Option (List (List Char × PyVal) × List Tok)
  | 0, _ => none
  | _ + 1, [] => none
  | f + 1, t :: ts =>
    if t = .rbrace then some ([], ts)
    else
      match t, ts with
      | .strTok k, .colon :: rest =>
        match parseVal f rest with
        | some (v, .comma :: rest') =>
          (parseEntries f rest').map (fun p => ((k, v) :: p.1, p.2))
        | _ => none
      | _, _ => none

/-- Reader for a sequence body: elements `value,` until the closing
bracket. -/
def parseElems : ℕ → List Tok → Option (List PyVal × List Tok)
  | 0, _ => none
  | _ + 1, [] => none
  | f + 1, t :: ts =>
    if t = .rbrack then some ([], ts)
    else
      match parseVal f (t :: ts) with
      | some (v, .comma :: rest') =>
        (parseElems f rest').map (fun p => (v :: p.1, p.2))
      | _ => none

end

/-- Read a result file back: expect the `results = ` prelude (two atoms) and
then one value consuming all remaining tokens. -/
def parseResults (cs : List Char) : Option PyVal :=
  match tokenize cs with
  | none => none
  | some toks =>
    match toks with
    | .atomTok s1 :: .atomTok s2 :: rest =>
      if s1 = "results".data ∧ s2 = "=".data then
        match parseVal (rest.length + 1) rest with
        | some (v, []) => some v
        | _ => none
      else none
    | _ => none

/-- A string character the reader hands back unchanged: not a quote (which
ends the literal early), not a backslash (which Python's reader would treat
as an escape), not a line break (inside which Python's reader fails). -/
def goodStrChar (c : Char) : Bool :=
  !(c = '"') && !(c = '\\') && !(c = '\n') && !(c = '\r')

mutual

/-- Well-formedness of a value for the round trip: every string and key is
made of `goodStrChar`s and every number's printed form is a nonempty run of
atom characters (automatically true of `str()` on a Python number). -/
def wfV : PyVal → Bool
  | .str s => s.all goodStrChar
  | .num s => !s.isEmpty && s.all isAtomChar
  | .dict es => wfE es
  | .seq vs => wfL vs

/-- Well-formedness of a mapping's entries. -/
def wfE : List (List Char × PyVal) → Bool
  | [] => true
  | (k, v) :: rest => k.all goodStrChar && wfV v && wfE rest

/-- Well-formedness of a sequence's elements. -/
def wfL : List PyVal → Bool
  | [] => true
  | v :: rest => wfV v && wfL rest

end

mutual

/-- The token list of one value as the serializer renders it (without the
separating comma a container emits after itself at positive depth). -/
def toksV : PyVal → List Tok
  | .str s => [.strTok s]
  | .num s => [.atomTok s]
  | .dict es => .lbrace :: (toksE es ++ [.rbrace])
  | .seq vs => .lbrack :: (toksL vs ++ [.rbrack])

/-- The token list of a mapping body (each entry followed by its comma). -/
def toksE : List (List Char × PyVal) → List Tok
  | [] => []
  | (k, v) :: rest => .strTok k :: .colon :: (toksV v ++ [.comma]) ++ toksE rest

/-- The token list of a sequence body (each element followed by its comma). -/
def toksL : List PyVal → List Tok
  | [] => []
  | v :: rest => (toksV v ++ [.comma]) ++ toksL rest

end

/-- The disposition of the no-position node scan once a region containing the
symbol has been found, as a function of that region's label. -/
def nodeLabelResolve (preString i nset label : String) : Except PyErr String :=
  let labelSplit := pySplit label ' '
  if labelSplit.headD "" == "Node" && labelSplit.length == 2 then
    match (pySplit (labelSplit.getD 1 "") '.').get? 1 with
    | some nodeNumber =>
      .ok (preString ++ i ++ " at Node " ++ nodeNumber ++ " in NSET " ++ nset)
    | none => .error .indexError
  else .error .mustSpecifyPosition

/-- C1 (amended): for a node identifier with an `nset` but no `position`, the
scan over the single relevant step is decided entirely by the first region in
scan order whose outputs contain the symbol — zero such regions raise the
fall-through error, and the first such region's label alone determines the
result, so a second matching channel is never examined and more than one
match is not an error. -/
theorem c1_scan_first_match (preString i nset : String) (step : StepData) :
    scanRegionsForSymbol preString i nset step =
      match step.find? (fun r => r.2.contains i) with
      | none => .error .scanFailed
      | some r => nodeLabelResolve preString i nset r.1 := by
  induction step with
  | nil => rfl
  | cons hd tl ih =>
    obtain ⟨label, outputs⟩ := hd
    by_cases h : i ∈ outputs
    · simp [scanRegionsForSymbol, List.find?, h, nodeLabelResolve]
    · simp [scanRegionsForSymbol, List.find?, h, ih]

/-- C1 counterexample: a step holding two channels that both match the `RF1`
scan (outputs contain the symbol, two-token `Node` labels).  The claim says
this must raise an unresolved/ambiguous error, but resolution succeeds with
the name built from the first channel. -/
theorem c1_counterexample :
    matchingRegionCount "RF1"
      [("Node PART-1-1.9", ["RF1"]), ("Node PART-1-1.10", ["RF1"])] = 2 ∧
    historyOutputNameHelperNode "Reaction force: " "RF1" none (some "LOADAPP")
      [[("Node PART-1-1.9", ["RF1"]), ("Node PART-1-1.10", ["RF1"])]] =
      .ok "Reaction force: RF1 at Node 9 in NSET LOADAPP" := by
  constructor
  · decide
  · decide

/-- For any two-argument combination of the elements at indices `x - 1` and
`x`, the list comprehension over `range(2, len(l))` equals the map over the
consecutive pairs of `l` with its first element dropped. -/
theorem rangePairsEqZipTail (l : List (ℚ × ℚ)) (f : (ℚ × ℚ) → (ℚ × ℚ) → ℚ) :
    (List.range' 2 (l.length - 2)).map (fun x => f (l.getD (x - 1) (0, 0)) (l.getD x (0, 0))) =
      (l.tail.zip l.tail.tail).map (fun p => f p.1 p.2) := by
  apply List.ext_getElem
  · simp [List.length_zip, List.length_tail]
    omega
  · intro i h1 h2
    simp only [List.getElem_map, List.getElem_range'_1, List.getElem_zip]
    have hlen : i + 2 < l.length := by
      simp at h1; omega
    rw [List.getD_eq_getElem _ _ (by omega : 2 + i < l.length),
        List.getD_eq_getElem _ _ (by omega : 2 + i - 1 < l.length)]
    have e1 : 2 + i - 1 = i + 1 := by omega
    have e2 : 2 + i = i + 2 := by omega
    have e3 : i + 1 + 1 = i + 2 := by omega
    simp only [e1]
    simp only [e2]
    simp only [List.getElem_tail, e3]

/-- C2 (amended): the `continuous` test's computed value is the running
maximum of `max(referenceValue, |y[i] - y[i-1]|)` over the consecutive sample
pairs of the series with its first sample dropped — the loop starts at index
2, so the delta between the first two samples is never examined; for
`referenceValue = 0.1` and consecutive deltas `[0.05, 0.5, 0.02]` the
computed value is still `0.5`. -/
theorem c2_continuous_skips_first_delta :
    (∀ (referenceValue : ℚ) (xy : List (ℚ × ℚ)),
      continuousComputed referenceValue xy =
        continuousSpecAllPairs referenceValue xy.tail) ∧
    continuousComputed (1/10) [(0, 0), (1, 1/20), (2, 11/20), (3, 57/100)] = .ok (1/2) := by
  constructor
  · intro referenceValue xy
    unfold continuousComputed continuousSpecAllPairs
    exact congrArg pyMaxList
      (rangePairsEqZipTail xy (fun a b => max referenceValue |b.2 - a.2|))
  · norm_num [continuousComputed, pyMaxList, List.range', abs_of_nonneg, sup_eq_max, max_def]

/-- C2 counterexample: for the series with consecutive deltas `[0.9, 0.1]`
and `referenceValue = 0.1`, the claim's formula (running max over all
consecutive pairs) gives `0.9`, but the code gives `0.1` because the first
delta is skipped. -/
theorem c2_counterexample :
    continuousComputed (1/10) [(0, 0), (1, 9/10), (2, 1)] = .ok (1/10) ∧
    continuousSpecAllPairs (1/10) [(0, 0), (1, 9/10), (2, 1)] = .ok (9/10) := by
  constructor
  · norm_num [continuousComputed, pyMaxList, List.range', abs_of_nonneg, sup_eq_max, max_def]
  · norm_num [continuousSpecAllPairs, pyMaxList, abs_of_nonneg, sup_eq_max, max_def]

/-- C3 (amended): the `tabular` evaluator raises the non-monotonic-domain
error exactly when every consecutive x-difference of the combined series is
negative (`np.all(np.diff(x) < 0)`) — merely failing to be non-decreasing
does not raise; otherwise it returns, for each reference x, the pair
`(x, np.interp(x))`: series `[(0,0),(1,2),(2,4)]` at `[0.5, 1.5]` yields
`[(0.5, 1.0), (1.5, 3.0)]`, and x values `[2,1,0]` fail. -/
theorem c3_tabular_decreasing_only :
    (∀ (xy referenceValue : List (ℚ × ℚ)),
      tabularComputed xy referenceValue = .error .nonMonotonicDomain ↔
        allDiffNeg (xy.map Prod.fst) = true) ∧
    tabularComputed [(0, 0), (1, 2), (2, 4)] [(1/2, 1), (3/2, 3)] =
      .ok [(1/2, 1), (3/2, 3)] ∧
    tabularComputed [(2, 0), (1, 2), (0, 4)] [(1/2, 1)] = .error .nonMonotonicDomain := by
  refine ⟨?_, ?_, ?_⟩
  · intro xy referenceValue
    unfold tabularComputed
    by_cases h : allDiffNeg (xy.map Prod.fst) = true
    · simp [h]
    · simp [h]
  · norm_num [tabularComputed, allDiffNeg, npInterp]
  · norm_num [tabularComputed, allDiffNeg]

/-- C3 counterexample: the series `[(0,0),(2,5),(1,7)]` has x values
`[0, 2, 1]`, which are not non-decreasing, yet the evaluator does not fail —
with no reference x values it returns the empty computed list. -/
theorem c3_counterexample :
    nonDecreasing ([(0, 0), (2, 5), (1, 7)].map Prod.fst) = false ∧
    tabularComputed [(0, 0), (2, 5), (1, 7)] [] = .ok [] := by
  constructor
  · decide
  · decide

/-- C4: the `disp_at_zero_y` branch uses `disp_crit = 0` as its not-found
sentinel, so a window whose first qualifying sample sits at `x = 0` raises
the zero-crossing-not-found error even though a qualifying point exists —
here the point `(0, 0)` lies strictly inside the window `(-1, 1)` and
satisfies `|y| ≤ 1e-6`, yet the branch raises; away from `x = 0` the branch
returns the x of the first qualifying windowed point as the claim states. -/
theorem c4_zero_sentinel :
    ((-1 : ℚ) < 0 ∧ (0 : ℚ) < 1 ∧ |(0 : ℚ)| ≤ 1 / 1000000) ∧
    dispAtZeroY [(0, 0)] (some (-1, 1)) 0 0 none = .error .zeroCrossingNotFound ∧
    dispAtZeroY [(0, 1), (1/2, 0), (3/4, 0)] (some (0, 1)) 0 0 none = .ok (1/2) := by
  refine ⟨⟨by norm_num, by norm_num, by norm_num⟩, ?_, ?_⟩
  · norm_num [dispAtZeroY, List.filter, List.find?]
  · norm_num [dispAtZeroY, List.filter, List.find?]

/-- C5 (amended): window selection keeps exactly the points with
`min < x < max` (strict inequalities, as any `.ok` result is the strict
filter), `min = max` — and any window keeping zero points — raises the
no-data error, but a window keeping exactly one point raises too: the
duplicate-spacing check takes Python's `min` of an empty sequence
(`ValueError`) instead of returning the single point. -/
theorem c5_window_select (xyData : List (ℚ × ℚ)) (wmin wmax : ℚ) :
    (wmin = wmax → windowSelect xyData wmin wmax = .error .noPointsInWindow) ∧
    ((xyData.filter (fun xi => decide (wmin < xi.1) && decide (xi.1 < wmax))).length = 0 →
      windowSelect xyData wmin wmax = .error .noPointsInWindow) ∧
    ((xyData.filter (fun xi => decide (wmin < xi.1) && decide (xi.1 < wmax))).length = 1 →
      windowSelect xyData wmin wmax = .error .valueErrorEmptySeq) ∧
    (∀ l, windowSelect xyData wmin wmax = .ok l →
      l = xyData.filter (fun xi => decide (wmin < xi.1) && decide (xi.1 < wmax))) := by
  refine ⟨?_, ?_, ?_, ?_⟩
  · intro he
    subst he
    have hf : xyData.filter (fun xi => decide (wmin < xi.1) && decide (xi.1 < wmin)) = [] := by
      refine List.filter_eq_nil_iff.mpr ?_
      intro a _
      simp only [Bool.and_eq_true, decide_eq_true_eq, not_and]
      intro h1 h2
      exact absurd (h1.trans h2) (lt_irrefl _)
    unfold windowSelect
    rw [hf]
    rfl
  · intro h0
    unfold windowSelect
    rw [List.length_eq_zero.mp h0]
    rfl
  · intro h1
    obtain ⟨a, ha⟩ := List.length_eq_one.mp h1
    unfold windowSelect
    rw [ha]
    rfl
  · intro l hl
    simp only [windowSelect] at hl
    split_ifs at hl with h0
    split at hl
    · exact absurd hl (by simp)
    · split_ifs at hl with hm
      exact (Except.ok.inj hl).symm

set_option maxHeartbeats 1000000 in
/-- C5 witness: `c5_window_select` applied at a window keeping exactly one
point, with its length-one hypothesis discharged. -/
theorem c5_window_select_witness :
    windowSelect [(0, 0), (5, 1)] 2 9 = .error .valueErrorEmptySeq :=
  (c5_window_select [(0, 0), (5, 1)] 2 9).2.2.1 (by decide)

set_option maxHeartbeats 1000000 in
/-- C5 counterexample: the window `(1, 6)` over `[(0,0),(5,1)]` keeps exactly
the single point `(5, 1)`, and the claim says that point is returned — but
the code raises Python's empty-sequence `ValueError` from `min([])`. -/
theorem c5_counterexample :
    [(0, 0), (5, 1)].filter (fun xi => decide ((1 : ℚ) < xi.1) && decide (xi.1 < 6)) =
      [(5, 1)] ∧
    windowSelect [(0, 0), (5, 1)] 1 6 = .error .valueErrorEmptySeq := by
  constructor
  · decide
  · norm_num [windowSelect, pyMinList, List.filter]

/-- Negating a list with all-negative consecutive differences gives one with
all-positive consecutive differences. -/
theorem allDiffPos_map_neg : ∀ xp : List ℚ, allDiffNeg xp = true →
    allDiffPos (xp.map (fun v => -v)) = true := by
  intro xp
  induction xp with
  | nil => intro _; rfl
  | cons x0 rest ih =>
    cases rest with
    | nil => intro _; rfl
    | cons x1 rest' =>
      intro h
      simp only [allDiffNeg, List.tail_cons, List.zip_cons_cons, List.all_cons,
        Bool.and_eq_true, decide_eq_true_eq] at h
      simp only [List.map_cons, allDiffPos, List.tail_cons, List.zip_cons_cons,
        List.all_cons, Bool.and_eq_true, decide_eq_true_eq]
      refine ⟨by exact neg_lt_neg h.1, ?_⟩
      have := ih (by simp only [allDiffNeg, List.tail_cons, List.zip_cons_cons]; exact h.2)
      simpa only [allDiffPos, List.map_cons, List.tail_cons] using this

/-- C6 (amended): the sign-flip identity holds for every all-negative `xp`
that is consecutively strictly decreasing (`np.all(np.diff(xp) < 0)`) — the
regime the fallback branch is written for.  For an all-negative but sorted
`xp` the identity fails (see the counterexample), because the sign-flipped
domain is then decreasing and positive, which `interpolate` rejects. -/
theorem c6_sign_flip (x : ℚ) (xp fp : List ℚ)
    (hneg : ∀ v ∈ xp, v < 0) (hdec : allDiffNeg xp = true) :
    interpolate x xp fp = interpolate (-x) (xp.map (fun v => -v)) fp := by
  match xp, hneg, hdec with
  | [], _, _ => rfl
  | [x0], hneg, _ =>
    cases fp with
    | nil => rfl
    | cons f0 fs =>
      cases fs with
      | nil => rfl
      | cons f1 fs' => rfl
  | x0 :: x1 :: rest, hneg, hdec =>
    have h10 : x1 < x0 ∧ allDiffNeg (x1 :: rest) = true := by
      simp only [allDiffNeg, List.tail_cons, List.zip_cons_cons, List.all_cons,
        Bool.and_eq_true, decide_eq_true_eq] at hdec
      exact ⟨hdec.1, by simp only [allDiffNeg, List.tail_cons, List.zip_cons_cons]; exact hdec.2⟩
    have hADP : allDiffPos (x0 :: x1 :: rest) = false := by
      simp only [allDiffPos, List.tail_cons, List.zip_cons_cons, List.all_cons,
        Bool.and_eq_true, decide_eq_true_eq]
      simp [not_lt.mpr (le_of_lt h10.1)]
    have hAllNeg : (x0 :: x1 :: rest).all (fun i => decide (i < 0)) = true := by
      simp only [List.all_eq_true, decide_eq_true_eq]
      exact hneg
    have hPos : allDiffPos ((x0 :: x1 :: rest).map (fun v => -v)) = true :=
      allDiffPos_map_neg _ hdec
    have habs : (x0 :: x1 :: rest).map (fun v => |v|) = (x0 :: x1 :: rest).map (fun v => -v) :=
      List.map_congr_left (fun a ha => abs_of_neg (hneg a ha))
    unfold interpolate
    rw [hADP, hPos, hAllNeg]
    simp only [Bool.false_eq_true, if_false, if_true, List.length_map, List.length_cons]
    have hz : ¬(rest.length + 1 + 1 = 0 ∨ rest.length + 1 + 1 ≠ fp.length) ↔
        ¬(rest.length + 1 + 1 ≠ fp.length) := by
      constructor
      · intro h hne; exact h (Or.inr hne)
      · intro h hor; rcases hor with h0 | hne
        · exact absurd h0 (by omega)
        · exact h hne
    by_cases hlen : rest.length + 1 + 1 ≠ fp.length
    · rw [if_pos hlen, if_pos (Or.inr hlen)]
    · rw [if_neg hlen, if_neg (fun hor => by
        rcases hor with h0 | hne
        · exact absurd h0 (by omega)
        · exact hlen hne)]
      rw [habs, neg_one_mul]

/-- C6 witness: `c6_sign_flip` at a concrete decreasing all-negative domain,
hypotheses discharged. -/
theorem c6_sign_flip_witness :
    interpolate 0 [-1, -2] [5, 6] = interpolate (-0) ([(-1 : ℚ), -2].map (fun v => -v)) [5, 6] :=
  c6_sign_flip 0 [-1, -2] [5, 6] (by decide) (by decide)

/-- C6 counterexample: `xp = [-3, -2, -1]` is all-negative but sorted
ascending, so the left side interpolates directly while the right side — the
claim's sign-flipped call on `[3, 2, 1]` — hits a positive decreasing domain
and raises the unsupported-domain error; the two sides are not equal. -/
theorem c6_counterexample :
    (∀ v ∈ [(-3 : ℚ), -2, -1], v < 0) ∧
    interpolate (-2) [-3, -2, -1] [0, 1, 2] = .ok 1 ∧
    interpolate (-(-2)) ([(-3 : ℚ), -2, -1].map (fun v => -v)) [0, 1, 2] =
      .error .unsupportedInterpolation := by
  refine ⟨by decide, ?_, ?_⟩
  · norm_num [interpolate, allDiffPos, npInterp]
  · norm_num [interpolate, allDiffPos]

/-- C8 (amended): with at least one analysis error, the gate raises unless
`ignoreAnalysisErrors` is present and truthy — merely having only
excessive-distortion errors on a failure-envelope job does not prevent the
raise, because control falls through to the `ignoreAnalysisErrors` check;
and independently of that flag, the gate raises whenever
`log_stress_at_failure_init` appears among the requested types (membership,
not exclusivity) while some error is not an excessive-distortion error. -/
theorem c8_error_gate (numErrors : ℕ) (errorDescriptions resultTypes : List String)
    (ignoreAnalysisErrors : Option Bool) :
    analysisErrorGate numErrors errorDescriptions resultTypes ignoreAnalysisErrors = true ↔
      0 < numErrors ∧
        ((resultTypes.contains "log_stress_at_failure_init" = true ∧
            ∃ d ∈ errorDescriptions, d ≠ "Excessively distorted elements") ∨
          ignoreAnalysisErrors ≠ some true) := by
  unfold analysisErrorGate
  by_cases hn : numErrors > 0
  · rw [if_pos hn]
    by_cases hb : (resultTypes.contains "log_stress_at_failure_init" &&
        errorDescriptions.any (fun e => !(e == "Excessively distorted elements"))) = true
    · rw [if_pos hb]
      simp only [Bool.and_eq_true, List.any_eq_true, Bool.not_eq_true', beq_eq_false_iff_ne] at hb
      simp only [true_iff]
      exact ⟨hn, Or.inl ⟨hb.1, hb.2⟩⟩
    · rw [if_neg hb]
      simp only [Bool.and_eq_true, List.any_eq_true, Bool.not_eq_true',
        beq_eq_false_iff_ne, not_and, not_exists] at hb
      cases hig : ignoreAnalysisErrors with
      | none => simp [hn]
      | some b =>
        cases b with
        | true =>
          simp
          intro _ hmem x hx
          exact not_not.mp (hb (by simp [hmem]) x hx)
        | false =>
          simp only [Bool.not_false, true_iff]
          exact ⟨hn, Or.inr (by simp)⟩
  · rw [if_neg hn]
    simp [hn]

/-- C8 counterexample: a run with one analysis error whose description is
exactly `'Excessively distorted elements'`, a job whose specifications
exclusively target `log_stress_at_failure_init`, and no
`ignoreAnalysisErrors` key.  The claim says evaluation proceeds; the gate
raises. -/
theorem c8_counterexample :
    (∀ d ∈ ["Excessively distorted elements"], d = "Excessively distorted elements") ∧
    analysisErrorGate 1 ["Excessively distorted elements"]
      ["log_stress_at_failure_init"] none = true := by
  constructor
  · decide
  · decide

/-- C9: in the `finalValue` branch the stored value is `xyDataObj[-1][1]`,
but under `evalStatement` the selected series is bound to `xy` and
`xyDataObj` is never assigned — the branch reads whatever an earlier test
iteration left in `xyDataObj` (`NameError` when nothing did), not the last y
of the eval-produced series: here the selected series ends with y = 2, yet
the branch raises `NameError` with no stale binding and returns the stale
series' 7 with one, while the positional path correctly returns 42. -/
theorem c9_final_value_bug :
    finalValueSelectedSeries true [(0, 1), (1, 2)] [] = [(0, 1), (1, 2)] ∧
    finalValueBranch true [(0, 1), (1, 2)] [] none = .error .nameError ∧
    finalValueBranch true [(0, 1), (1, 2)] [] (some [(0, 7)]) = .ok 7 ∧
    finalValueBranch false [] [(0, 1), (10, 42)] (some [(0, 7)]) = .ok 42 := by
  refine ⟨by decide, by decide, by decide, by decide⟩

/-- C10: if the job configuration does not contain the key `ignoreWarnings`,
analysis warnings never abort evaluation; the warning gate raises exactly
when `ignoreWarnings` is present with a false value while the run reports at
least one warning. -/
theorem c10_warning_gate (ignoreWarnings : Option Bool) (numWarnings : ℕ) :
    (ignoreWarnings = none → warningGate ignoreWarnings numWarnings = false) ∧
    (warningGate ignoreWarnings numWarnings = true ↔
      ignoreWarnings = some false ∧ 0 < numWarnings) := by
  constructor
  · rintro rfl; rfl
  · cases ignoreWarnings with
    | none => simp [warningGate]
    | some b => cases b <;> simp [warningGate]

/-- C10 witness: `c10_warning_gate` at a configuration without the key and
five warnings. -/
theorem c10_warning_gate_witness :
    ((none : Option Bool) = none → warningGate none 5 = false) ∧
    (warningGate none 5 = true ↔ (none : Option Bool) = some false ∧ 0 < 5) :=
  c10_warning_gate none 5

/-- Skipping one whitespace character between tokens. -/
theorem tok_ws (c : Char) (cs : List Char) (h : isWsChar c = true) :
    tokenizeFrom (c :: cs) .top = tokenizeFrom cs .top := by
  simp [tokenizeFrom, h]

/-- Skipping a run of tabs between tokens. -/
theorem tok_tabs (d : ℕ) (cs : List Char) :
    tokenizeFrom (tabs d ++ cs) .top = tokenizeFrom cs .top := by
  induction d with
  | zero => rfl
  | succ d ih =>
    have : tabs (d + 1) = '\t' :: tabs d := by
      simp [tabs, List.replicate_succ]
    rw [this, List.cons_append, tok_ws _ _ (by decide), ih]

/-- Reading one delimiter character as its token. -/
theorem tok_delim (c : Char) (cs : List Char) (h1 : isWsChar c = false)
    (h2 : isDelimChar c = true) :
    tokenizeFrom (c :: cs) .top = (tokenizeFrom cs .top).map (fun ts => delimTok c :: ts) := by
  simp [tokenizeFrom, h1, h2]

/-- An opening quote switches the tokenizer into string mode. -/
theorem tok_quote_top (cs : List Char) :
    tokenizeFrom ('"' :: cs) .top = tokenizeFrom cs (.inStr []) := by
  simp [tokenizeFrom, isWsChar, isDelimChar]

/-- Consuming a quote-free run inside a string literal up to its closing
quote. -/
theorem tok_str_run : ∀ (s acc : List Char) (cs : List Char), (∀ c ∈ s, ¬(c = '"')) →
    tokenizeFrom (s ++ '"' :: cs) (.inStr acc) =
      (tokenizeFrom cs .top).map (fun ts => .strTok (acc.reverse ++ s) :: ts) := by
  intro s
  induction s with
  | nil =>
    intro acc cs _
    simp [tokenizeFrom]
  | cons c s' ih =>
    intro acc cs h
    have hc' : ¬(c = '"') := h c (by simp)
    rw [List.cons_append]
    show (if c = '"' then (tokenizeFrom (s' ++ '"' :: cs) .top).map _ else
      tokenizeFrom (s' ++ '"' :: cs) (.inStr (c :: acc))) = _
    rw [if_neg hc']
    rw [ih (c :: acc) cs (fun d hd => h d (by simp [hd]))]
    simp [List.reverse_cons, List.append_assoc]

/-- A quoted string literal read from between-token position. -/
theorem tok_str_top (s : List Char) (cs : List Char) (h : ∀ c ∈ s, ¬(c = '"')) :
    tokenizeFrom ('"' :: (s ++ '"' :: cs)) .top =
      (tokenizeFrom cs .top).map (fun ts => .strTok s :: ts) := by
  rw [tok_quote_top, tok_str_run s [] cs h]
  simp

/-- Consuming a run of atom characters inside an atom. -/
theorem tok_atom_run : ∀ (s acc : List Char) (cs : List Char), s.all isAtomChar = true →
    tokenizeFrom (s ++ cs) (.inAtom acc) = tokenizeFrom cs (.inAtom (s.reverse ++ acc)) := by
  intro s
  induction s with
  | nil => intro acc cs _; simp
  | cons c s' ih =>
    intro acc cs h
    simp only [List.all_cons, Bool.and_eq_true] at h
    rw [List.cons_append]
    show (if isAtomChar c then tokenizeFrom (s' ++ cs) (.inAtom (c :: acc)) else _) = _
    rw [if_pos h.1, ih (c :: acc) cs h.2]
    simp [List.reverse_cons, List.append_assoc]

/-- An atom character sequence ends at the first non-atom, non-quote
character, emitting the accumulated atom token and re-dispatching on that
character exactly as between-token position would. -/
theorem tok_atom_close (c : Char) (cs : List Char) (acc : List Char)
    (h1 : isAtomChar c = false) (h2 : ¬(c = '"')) :
    tokenizeFrom (c :: cs) (.inAtom acc) =
      (tokenizeFrom (c :: cs) .top).map (fun ts => .atomTok acc.reverse :: ts) := by
  have hwd : isWsChar c = true ∨ isDelimChar c = true := by
    by_contra hcon
    push_neg at hcon
    have hw : isWsChar c = false := by
      cases hx : isWsChar c
      · rfl
      · exact absurd hx hcon.1
    have hd : isDelimChar c = false := by
      cases hx : isDelimChar c
      · rfl
      · exact absurd hx hcon.2
    unfold isAtomChar at h1
    rw [hw, hd] at h1
    simp at h1
    exact absurd h1 h2
  rcases hwd with hw | hd
  · have hna : isAtomChar c = false := h1
    show (if isAtomChar c then _ else if isWsChar c then
      (tokenizeFrom cs .top).map (fun ts => .atomTok acc.reverse :: ts) else _) = _
    rw [if_neg (by simp [hna]), if_pos (by simp [hw])]
    rw [tok_ws c cs hw]
  · have hw : isWsChar c = false := by
      cases hx : isWsChar c
      · rfl
      · exfalso
        unfold isWsChar at hx
        simp only [Bool.or_eq_true, decide_eq_true_eq] at hx
        rcases hx with ((h | h) | h) | h <;> subst h <;> exact absurd hd (by decide)
    show (if isAtomChar c then _ else if isWsChar c then _ else if isDelimChar c then
      ((tokenizeFrom cs .top).map (fun ts => delimTok c :: ts)).map
        (fun ts => .atomTok acc.reverse :: ts) else _) = _
    rw [if_neg (by simp [h1]), if_neg (by simp [hw]), if_pos (by simp [hd])]
    rw [tok_delim c cs hw hd]

/-- An atom (a number's printed form, or a bare name) read from
between-token position, up to a following non-atom, non-quote character. -/
theorem tok_atom_top (s : List Char) (c : Char) (cs : List Char)
    (hs : s.all isAtomChar = true) (hne : s ≠ [])
    (h1 : isAtomChar c = false) (h2 : ¬(c = '"')) :
    tokenizeFrom (s ++ c :: cs) .top =
      (tokenizeFrom (c :: cs) .top).map (fun ts => .atomTok s :: ts) := by
  match s, hne with
  | a :: s', _ =>
    simp only [List.all_cons, Bool.and_eq_true] at hs
    have haw : isWsChar a = false := by
      cases hx : isWsChar a
      · rfl
      · exfalso; have := hs.1; unfold isAtomChar at this; rw [hx] at this; simp at this
    have had : isDelimChar a = false := by
      cases hx : isDelimChar a
      · rfl
      · exfalso; have := hs.1; unfold isAtomChar at this; rw [hx] at this; simp at this
    have haq : ¬(a = '"') := by
      intro hx
      have := hs.1; unfold isAtomChar at this; rw [hx] at this; simp [isWsChar, isDelimChar] at this
    rw [List.cons_append]
    show (if isWsChar a then _ else if isDelimChar a then _ else if a = '"' then _ else
      tokenizeFrom (s' ++ c :: cs) (.inAtom [a])) = _
    rw [if_neg (by simp [haw]), if_neg (by simp [had]), if_neg haq]
    rw [tok_atom_run s' [a] (c :: cs) hs.2]
    rw [tok_atom_close c cs (s'.reverse ++ [a]) h1 h2]
    simp

/-- The token list of a value is nonempty and never starts with a closing
delimiter. -/
theorem toksV_head_ne (v : PyVal) :
    ∃ t ts, toksV v = t :: ts ∧ ¬(t = Tok.rbrack) ∧ ¬(t = Tok.rbrace) := by
  cases v with
  | str s => exact ⟨_, _, rfl, by simp, by simp⟩
  | num s => exact ⟨_, _, rfl, by simp, by simp⟩
  | dict es => exact ⟨_, _, rfl, by simp, by simp⟩
  | seq vs => exact ⟨_, _, rfl, by simp, by simp⟩

mutual

/-- Reading back the token rendering of one value consumes exactly those
tokens and returns the value, for any sufficient fuel. -/
theorem parseVal_toks (v : PyVal) : ∀ (f : ℕ) (rest : List Tok),
    (toksV v).length < f →
    parseVal f (toksV v ++ rest) = some (v, rest) := by
  intro f rest h
  cases v with
  | str s =>
    cases f with
    | zero => exact absurd h (by omega)
    | succ f => rfl
  | num s =>
    cases f with
    | zero => exact absurd h (by omega)
    | succ f => rfl
  | dict es =>
    cases f with
    | zero => exact absurd h (by omega)
    | succ f =>
      simp only [toksV, List.length_cons, List.length_append] at h ⊢
      rw [show ((Tok.lbrace :: (toksE es ++ [Tok.rbrace])) ++ rest) =
        Tok.lbrace :: (toksE es ++ Tok.rbrace :: rest) from by simp]
      simp only [parseVal]
      rw [parseEntries_toks es f rest (by omega)]
      rfl
  | seq vs =>
    cases f with
    | zero => exact absurd h (by omega)
    | succ f =>
      simp only [toksV, List.length_cons, List.length_append] at h ⊢
      rw [show ((Tok.lbrack :: (toksL vs ++ [Tok.rbrack])) ++ rest) =
        Tok.lbrack :: (toksL vs ++ Tok.rbrack :: rest) from by simp]
      simp only [parseVal]
      rw [parseElems_toks vs f rest (by omega)]
      rfl

/-- Reading back the token rendering of a mapping body up to its closing
brace returns the entry list. -/
theorem parseEntries_toks (es : List (List Char × PyVal)) : ∀ (f : ℕ) (rest : List Tok),
    (toksE es).length < f →
    parseEntries f (toksE es ++ Tok.rbrace :: rest) = some (es, rest) := by
  intro f rest h
  cases es with
  | nil =>
    cases f with
    | zero => exact absurd h (by omega)
    | succ f =>
      simp only [toksE, List.nil_append]
      simp [parseEntries]
  | cons kv es' =>
    obtain ⟨k, v⟩ := kv
    cases f with
    | zero => exact absurd h (by omega)
    | succ f =>
      simp only [toksE, List.length_cons, List.length_append] at h ⊢
      rw [show ((Tok.strTok k :: Tok.colon :: (toksV v ++ [Tok.comma]) ++ toksE es') ++
          Tok.rbrace :: rest) =
        Tok.strTok k :: Tok.colon ::
          (toksV v ++ (Tok.comma :: (toksE es' ++ Tok.rbrace :: rest))) from by simp]
      simp only [parseEntries]
      rw [if_neg (by simp)]
      rw [parseVal_toks v f _ (by simp at h; omega)]
      show Option.map (fun p => ((k, v) :: p.1, p.2))
        (parseEntries f (toksE es' ++ Tok.rbrace :: rest)) = _
      rw [parseEntries_toks es' f rest (by simp at h; omega)]
      rfl

/-- Reading back the token rendering of a sequence body up to its closing
bracket returns the element list. -/
theorem parseElems_toks (vs : List PyVal) : ∀ (f : ℕ) (rest : List Tok),
    (toksL vs).length < f →
    parseElems f (toksL vs ++ Tok.rbrack :: rest) = some (vs, rest) := by
  intro f rest h
  cases vs with
  | nil =>
    cases f with
    | zero => exact absurd h (by omega)
    | succ f =>
      simp only [toksL, List.nil_append]
      simp [parseElems]
  | cons v vs' =>
    cases f with
    | zero => exact absurd h (by omega)
    | succ f =>
      simp only [toksL, List.length_append, List.length_cons] at h ⊢
      rw [show ((toksV v ++ [Tok.comma]) ++ toksL vs' ++ Tok.rbrack :: rest) =
        toksV v ++ (Tok.comma :: (toksL vs' ++ Tok.rbrack :: rest)) from by simp]
      obtain ⟨t, ts, hts, hnb, _⟩ := toksV_head_ne v
      rw [hts, List.cons_append]
      simp only [parseElems]
      rw [if_neg hnb]
      rw [← List.cons_append, ← hts]
      rw [parseVal_toks v f _ (by simp at h; omega)]
      show Option.map (fun p => (v :: p.1, p.2))
        (parseElems f (toksL vs' ++ Tok.rbrack :: rest)) = _
      rw [parseElems_toks vs' f rest (by simp at h; omega)]
      rfl

end

/-- `delimTok` on the six delimiter characters. -/
theorem delim_lbrace : delimTok '\x7b' = Tok.lbrace := by decide

/-- `delimTok` on the closing brace. -/
theorem delim_rbrace : delimTok '\x7d' = Tok.rbrace := by decide

/-- `delimTok` on the opening bracket. -/
theorem delim_lbrack : delimTok '[' = Tok.lbrack := by decide

/-- `delimTok` on the closing bracket. -/
theorem delim_rbrack : delimTok ']' = Tok.rbrack := by decide

/-- `delimTok` on the comma. -/
theorem delim_comma : delimTok ',' = Tok.comma := by decide

/-- `delimTok` on the colon. -/
theorem delim_colon : delimTok ':' = Tok.colon := by decide

/-- A well-formed string never contains a quote character. -/
theorem goodStr_no_quote (s : List Char) (h : s.all goodStrChar = true) :
    ∀ c ∈ s, ¬(c = '"') := by
  intro c hc
  have hg := (List.all_eq_true.mp h) c hc
  unfold goodStrChar at hg
  simp only [Bool.and_eq_true, Bool.not_eq_true'] at hg
  simpa using hg.1.1.1

/-- A well-formed number text is nonempty. -/
theorem wfNum_ne_nil (s : List Char) (h : (!s.isEmpty && s.all isAtomChar) = true) :
    s ≠ [] := by
  intro hs
  subst hs
  simp at h



/-- Joint statement for the tokenization of serialized output, indexed by a
size bound to drive strong induction: containers written at positive depth,
mapping bodies, and sequence bodies each tokenize to their token lists
prepended to the tokens of the remaining text. -/
theorem tokenize_write_all (n : ℕ) :
    (∀ (v : PyVal) (d : ℕ) (cs : List Char), sizeOf v ≤ n → wfV v = true →
      isContainer v = true →
      tokenizeFrom (writeVal v (d + 1) ++ cs) .top =
        (tokenizeFrom cs .top).map (fun ts => (toksV v ++ [Tok.comma]) ++ ts)) ∧
    (∀ (es : List (List Char × PyVal)) (d : ℕ) (cs : List Char), sizeOf es ≤ n →
      wfE es = true →
      tokenizeFrom (writeEntries es d ++ cs) .top =
        (tokenizeFrom cs .top).map (fun ts => toksE es ++ ts)) ∧
    (∀ (vs : List PyVal) (d : ℕ) (cs : List Char), sizeOf vs ≤ n → wfL vs = true →
      tokenizeFrom (writeElems vs d ++ cs) .top =
        (tokenizeFrom cs .top).map (fun ts => toksL vs ++ ts)) := by
  induction n using Nat.strong_induction_on with
  | _ n ih =>
    refine ⟨?_, ?_, ?_⟩
    · intro v d cs hsz hwf hc
      cases v with
      | str s => exact absurd hc (by simp [isContainer])
      | num s => exact absurd hc (by simp [isContainer])
      | dict es =>
        have hwf' : wfE es = true := by simpa [wfV] using hwf
        have hlt : sizeOf es < n := by
          simp at hsz
          omega
        simp only [writeVal, if_neg (Nat.succ_ne_zero d)]
        simp only [List.append_assoc, List.cons_append, List.nil_append]
        rw [tok_tabs]
        rw [tok_delim '\x7b' _ (by decide) (by decide)]
        rw [tok_ws '\n' _ (by decide)]
        rw [(ih (sizeOf es) hlt).2.1 es (d + 1) _ le_rfl hwf']
        rw [tok_tabs]
        rw [tok_delim '\x7d' _ (by decide) (by decide)]
        rw [tok_delim ',' _ (by decide) (by decide)]
        rw [tok_ws ' ' _ (by decide)]
        rw [tok_ws '\n' _ (by decide)]
        cases htok : tokenizeFrom cs .top with
        | none => rfl
        | some ts => simp [toksV, delim_lbrace, delim_rbrace, delim_comma]
      | seq vs =>
        have hwf' : wfL vs = true := by simpa [wfV] using hwf
        have hlt : sizeOf vs < n := by
          simp at hsz
          omega
        simp only [writeVal, if_neg (Nat.succ_ne_zero d)]
        simp only [List.append_assoc, List.cons_append, List.nil_append]
        rw [tok_tabs]
        rw [tok_delim '[' _ (by decide) (by decide)]
        rw [tok_ws '\n' _ (by decide)]
        rw [(ih (sizeOf vs) hlt).2.2 vs (d + 1) _ le_rfl hwf']
        rw [tok_tabs]
        rw [tok_delim ']' _ (by decide) (by decide)]
        rw [tok_delim ',' _ (by decide) (by decide)]
        rw [tok_ws '\n' _ (by decide)]
        cases htok : tokenizeFrom cs .top with
        | none => rfl
        | some ts => simp [toksV, delim_lbrack, delim_rbrack, delim_comma]
    · intro es d cs hsz hwf
      rcases es with _ | ⟨⟨k, v⟩, es'⟩
      · simp only [writeEntries, List.nil_append, toksE]
        cases htok : tokenizeFrom cs .top with
        | none => rfl
        | some ts => rfl
      · have hwfk : k.all goodStrChar = true := by
          simp only [wfE, Bool.and_eq_true] at hwf
          exact hwf.1.1
        have hwfv : wfV v = true := by
          simp only [wfE, Bool.and_eq_true] at hwf
          exact hwf.1.2
        have hwfe : wfE es' = true := by
          simp only [wfE, Bool.and_eq_true] at hwf
          exact hwf.2
        have hszv : sizeOf v < n := by
          simp at hsz
          omega
        have hsze : sizeOf es' < n := by
          simp at hsz
          omega
        cases v with
        | str s =>
          have hwfs : s.all goodStrChar = true := by simpa [wfV] using hwfv
          simp only [writeEntries, toksE]
          simp only [List.append_assoc, List.cons_append, List.nil_append,
            List.singleton_append]
          rw [tok_tabs]
          rw [tok_str_top k _ (goodStr_no_quote k hwfk)]
          rw [tok_delim ':' _ (by decide) (by decide)]
          rw [tok_ws ' ' _ (by decide)]
          rw [tok_str_top s _ (goodStr_no_quote s hwfs)]
          rw [tok_delim ',' _ (by decide) (by decide)]
          rw [tok_ws '\n' _ (by decide)]
          rw [(ih (sizeOf es') hsze).2.1 es' d cs le_rfl hwfe]
          cases htok : tokenizeFrom cs .top with
          | none => rfl
          | some ts => simp [toksE, toksV, delim_colon, delim_comma]
        | num s =>
          have hwfs : (!s.isEmpty && s.all isAtomChar) = true := by simpa [wfV] using hwfv
          have hsa : s.all isAtomChar = true := by
            simp only [Bool.and_eq_true] at hwfs
            exact hwfs.2
          simp only [writeEntries, toksE]
          simp only [List.append_assoc, List.cons_append, List.nil_append,
            List.singleton_append]
          rw [tok_tabs]
          rw [tok_str_top k _ (goodStr_no_quote k hwfk)]
          rw [tok_delim ':' _ (by decide) (by decide)]
          rw [tok_ws ' ' _ (by decide)]
          rw [tok_atom_top s ',' _ hsa (wfNum_ne_nil s hwfs) (by decide) (by decide)]
          rw [tok_delim ',' _ (by decide) (by decide)]
          rw [tok_ws '\n' _ (by decide)]
          rw [(ih (sizeOf es') hsze).2.1 es' d cs le_rfl hwfe]
          cases htok : tokenizeFrom cs .top with
          | none => rfl
          | some ts => simp [toksE, toksV, delim_colon, delim_comma]
        | dict es2 =>
          simp only [writeEntries, toksE]
          simp only [List.append_assoc, List.cons_append, List.nil_append,
            List.singleton_append]
          rw [tok_tabs]
          rw [tok_str_top k _ (goodStr_no_quote k hwfk)]
          rw [tok_delim ':' _ (by decide) (by decide)]
          rw [tok_ws ' ' _ (by decide)]
          rw [tok_ws '\n' _ (by decide)]
          rw [(ih (sizeOf (PyVal.dict es2)) hszv).1 (.dict es2) d _ le_rfl hwfv
            (by simp [isContainer])]
          rw [(ih (sizeOf es') hsze).2.1 es' d cs le_rfl hwfe]
          cases htok : tokenizeFrom cs .top with
          | none => rfl
          | some ts => simp [toksE, delim_colon]
        | seq vs2 =>
          simp only [writeEntries, toksE]
          simp only [List.append_assoc, List.cons_append, List.nil_append,
            List.singleton_append]
          rw [tok_tabs]
          rw [tok_str_top k _ (goodStr_no_quote k hwfk)]
          rw [tok_delim ':' _ (by decide) (by decide)]
          rw [tok_ws ' ' _ (by decide)]
          rw [tok_ws '\n' _ (by decide)]
          rw [(ih (sizeOf (PyVal.seq vs2)) hszv).1 (.seq vs2) d _ le_rfl hwfv
            (by simp [isContainer])]
          rw [(ih (sizeOf es') hsze).2.1 es' d cs le_rfl hwfe]
          cases htok : tokenizeFrom cs .top with
          | none => rfl
          | some ts => simp [toksE, delim_colon]
    · intro vs d cs hsz hwf
      rcases vs with _ | ⟨v, vs'⟩
      · simp only [writeElems, List.nil_append, toksL]
        cases htok : tokenizeFrom cs .top with
        | none => rfl
        | some ts => rfl
      · have hwfv : wfV v = true := by
          simp only [wfL, Bool.and_eq_true] at hwf
          exact hwf.1
        have hwfl : wfL vs' = true := by
          simp only [wfL, Bool.and_eq_true] at hwf
          exact hwf.2
        have hszv : sizeOf v < n := by
          simp at hsz
          omega
        have hszl : sizeOf vs' < n := by
          simp at hsz
          omega
        cases v with
        | str s =>
          have hwfs : s.all goodStrChar = true := by simpa [wfV] using hwfv
          simp only [writeElems, toksL]
          simp only [List.append_assoc, List.cons_append, List.nil_append,
            List.singleton_append]
          rw [tok_tabs]
          rw [tok_str_top s _ (goodStr_no_quote s hwfs)]
          rw [tok_delim ',' _ (by decide) (by decide)]
          rw [tok_ws ' ' _ (by decide)]
          rw [tok_ws '\n' _ (by decide)]
          rw [(ih (sizeOf vs') hszl).2.2 vs' d cs le_rfl hwfl]
          cases htok : tokenizeFrom cs .top with
          | none => rfl
          | some ts => simp [toksL, toksV, delim_comma]
        | num s =>
          have hwfs : (!s.isEmpty && s.all isAtomChar) = true := by simpa [wfV] using hwfv
          have hsa : s.all isAtomChar = true := by
            simp only [Bool.and_eq_true] at hwfs
            exact hwfs.2
          simp only [writeElems, toksL]
          simp only [List.append_assoc, List.cons_append, List.nil_append,
            List.singleton_append]
          rw [tok_tabs]
          rw [tok_atom_top s ',' _ hsa (wfNum_ne_nil s hwfs) (by decide) (by decide)]
          rw [tok_delim ',' _ (by decide) (by decide)]
          rw [tok_ws ' ' _ (by decide)]
          rw [tok_ws '\n' _ (by decide)]
          rw [(ih (sizeOf vs') hszl).2.2 vs' d cs le_rfl hwfl]
          cases htok : tokenizeFrom cs .top with
          | none => rfl
          | some ts => simp [toksL, toksV, delim_comma]
        | dict es2 =>
          simp only [writeElems, toksL]
          simp only [List.append_assoc, List.cons_append, List.nil_append]
          rw [(ih (sizeOf (PyVal.dict es2)) hszv).1 (.dict es2) d _ le_rfl hwfv
            (by simp [isContainer])]
          rw [(ih (sizeOf vs') hszl).2.2 vs' d cs le_rfl hwfl]
          cases htok : tokenizeFrom cs .top with
          | none => rfl
          | some ts => simp [toksL]
        | seq vs2 =>
          simp only [writeElems, toksL]
          simp only [List.append_assoc, List.cons_append, List.nil_append]
          rw [(ih (sizeOf (PyVal.seq vs2)) hszv).1 (.seq vs2) d _ le_rfl hwfv
            (by simp [isContainer])]
          rw [(ih (sizeOf vs') hszl).2.2 vs' d cs le_rfl hwfl]
          cases htok : tokenizeFrom cs .top with
          | none => rfl
          | some ts => simp [toksL]

/-- Specialization of `tokenize_write_all` to containers at positive
depth. -/
theorem tokenize_writeVal_pos (v : PyVal) (d : ℕ) (cs : List Char)
    (hwf : wfV v = true) (hc : isContainer v = true) :
    tokenizeFrom (writeVal v (d + 1) ++ cs) .top =
      (tokenizeFrom cs .top).map (fun ts => (toksV v ++ [Tok.comma]) ++ ts) :=
  (tokenize_write_all (sizeOf v)).1 v d cs le_rfl hwf hc

/-- A container written at depth 0 closes with the bare bracket, so its text
tokenizes to exactly its token list (no trailing comma) prepended to the
tokens of the remaining text. -/
theorem tokenize_writeVal_zero (v : PyVal) (cs : List Char)
    (hwf : wfV v = true) (hc : isContainer v = true) :
    tokenizeFrom (writeVal v 0 ++ cs) .top =
      (tokenizeFrom cs .top).map (fun ts => toksV v ++ ts) := by
  cases v with
  | str s => exact absurd hc (by simp [isContainer])
  | num s => exact absurd hc (by simp [isContainer])
  | dict es =>
    have hwf' : wfE es = true := by simpa [wfV] using hwf
    simp only [writeVal, if_pos rfl, tabs, List.replicate, if_true]
    simp only [List.append_assoc, List.cons_append, List.nil_append]
    rw [tok_delim '\x7b' _ (by decide) (by decide)]
    rw [tok_ws '\n' _ (by decide)]
    rw [(tokenize_write_all (sizeOf es)).2.1 es 0 _ le_rfl hwf']
    rw [tok_delim '\x7d' _ (by decide) (by decide)]
    rw [tok_ws '\n' _ (by decide)]
    cases htok : tokenizeFrom cs .top with
    | none => rfl
    | some ts => simp [toksV, delim_lbrace, delim_rbrace]
  | seq vs =>
    have hwf' : wfL vs = true := by simpa [wfV] using hwf
    simp only [writeVal, if_pos rfl, tabs, List.replicate, if_true]
    simp only [List.append_assoc, List.cons_append, List.nil_append]
    rw [tok_delim '[' _ (by decide) (by decide)]
    rw [tok_ws '\n' _ (by decide)]
    rw [(tokenize_write_all (sizeOf vs)).2.2 vs 0 _ le_rfl hwf']
    rw [tok_delim ']' _ (by decide) (by decide)]
    rw [tok_ws '\n' _ (by decide)]
    cases htok : tokenizeFrom cs .top with
    | none => rfl
    | some ts => simp [toksV, delim_lbrack, delim_rbrack]

/-- C7 (amended): writing a result collection (a top-level mapping or
sequence of nested mappings, sequences, strings, and numbers) with
`write_results` and reading the produced file back yields the identical
collection — in particular the same key order and the same nesting shape —
provided the collection is well formed: no string or key contains a quote,
backslash, or line-break character (the characters on which the reader
fails or alters the text), and every number's printed form is a nonempty run
of non-delimiter, non-whitespace characters (always true of `str()` on a
number).  Without the string restriction the round trip fails (see the
counterexample). -/
theorem c7_roundtrip (v : PyVal) (hc : isContainer v = true) (hwf : wfV v = true) :
    parseResults (writeResultsFile v) = some v := by
  have htok : tokenize (writeResultsFile v) =
      some (Tok.atomTok "results".data :: Tok.atomTok "=".data :: toksV v) := by
    unfold tokenize
    rw [show writeResultsFile v =
      "results".data ++ (' ' :: ("=".data ++ (' ' :: writeVal v 0))) from rfl]
    rw [tok_atom_top "results".data ' ' _ (by decide) (by decide) (by decide) (by decide)]
    rw [tok_ws ' ' _ (by decide)]
    rw [tok_atom_top "=".data ' ' _ (by decide) (by decide) (by decide) (by decide)]
    rw [tok_ws ' ' _ (by decide)]
    rw [show writeVal v 0 = writeVal v 0 ++ ([] : List Char) from (List.append_nil _).symm]
    rw [tokenize_writeVal_zero v [] hwf hc]
    rw [show tokenizeFrom ([] : List Char) TokMode.top = some [] from rfl]
    simp
  simp only [parseResults]
  rw [htok]
  simp only []
  rw [if_pos (⟨trivial, trivial⟩ : True ∧ True)]
  rw [show toksV v = toksV v ++ ([] : List Tok) from (List.append_nil _).symm]
  rw [parseVal_toks v ((toksV v ++ ([] : List Tok)).length + 1) []
    (by simp)]

/-- C7 witness: `c7_roundtrip` at a mapping containing a sequence of
mappings of strings and numbers, hypotheses discharged by evaluation. -/
theorem c7_roundtrip_witness :
    parseResults (writeResultsFile (.dict [("tests".data,
      .seq [.dict [("name".data, .str "t1".data), ("value".data, .num "42.0".data)]])])) =
      some (.dict [("tests".data,
      .seq [.dict [("name".data, .str "t1".data), ("value".data, .num "42.0".data)]])]) :=
  c7_roundtrip (.dict [("tests".data,
    .seq [.dict [("name".data, .str "t1".data), ("value".data, .num "42.0".data)]])])
    (by rfl) (by rfl)

/-- C7 counterexample: a collection whose string value contains a quote
character.  The claim says every collection of nested mappings/sequences of
strings and numbers round-trips with its key order and nesting shape; here
the written file cannot be read back at all (the embedded quote ends the
string literal early and the reader fails on the unterminated text). -/
theorem c7_counterexample :
    parseResults (writeResultsFile (.dict [("k".data, .str ['a', '"', 'b'])])) = none := by
  rfl
